import Mathlib

/-!
Shallow embedding of the transfer-pair reconciliation and running-balance
core of a personal-finance tracker (React/Supabase frontend).

Sources embedded here:
* the Reports view (`Reports.fetchData`): monthly aggregation, the
  chronological balance replay with transfer-pair skip, per-day snapshots,
  display filtering of the snapshot list, and budget progress math;
* the Dashboard view (`Dashboard.fetchAccounts`): per-account current
  balance over transactions dated on or before today;
* the Transactions view (`Transactions.fetchData`): the filtered display
  list of transaction rows.

Conventions of the embedding:
* JS `Map` objects become association lists with insertion-order
  semantics (`mapSet` replaces in place or appends, `mapGet?` looks up);
* ISO date strings (`YYYY-MM-DD`, compared with `localeCompare`) become
  naturals that are order-isomorphic to them (e.g. `yyyymmdd`); the
  month prefix `slice(0, 7)` becomes division by 100;
* `created_at` timestamps (`new Date(..).getTime()`) become naturals;
* monetary amounts become integers (the claims under verification use
  only ordered-ring structure of the amounts; the budget percentage,
  which divides, is embedded over the rationals);
* uuid ids become strings;
* `Array.prototype.sort` with a key comparator is a stable sort, so it is
  embedded as `List.insertionSort` on the key order (any stable sort
  yields the same list on a total key preorder).
-/

inductive TxType where
  | receita
  | despesa
  | transferencia
deriving DecidableEq

/-- One row of the `transactions` table, with the fields the embedded
views read. -/
structure Tx where
  id : String
  ty : TxType
  amount : ℤ
  date : Nat
  created_at : Nat
  account_id : String
  destination_account_id : Option String
  transfer_pair_id : Option String
  category_id : Option String
deriving DecidableEq

/-- One row of the `accounts` table; `balance` is the stored opening
balance. -/
structure Account where
  id : String
  name : String
  balance : ℤ
deriving DecidableEq

/-- One row of the `tags` table. -/
structure Tag where
  id : String
  name : String
  color : String
deriving DecidableEq

section MapOps

variable {α β : Type} [DecidableEq α]

/-- `Map.set`: replace the entry in place, or append a new one. -/
def mapSet : List (α × β) → α → β → List (α × β)
  | [], k, v => [(k, v)]
  | (k₀, v₀) :: rest, k, v =>
    if k₀ = k then (k, v) :: rest else (k₀, v₀) :: mapSet rest k v

/-- `Map.get`: the value stored at a key, if any. -/
def mapGet? : List (α × β) → α → Option β
  | [], _ => none
  | (k₀, v₀) :: rest, k => if k₀ = k then some v₀ else mapGet? rest k

/-- `map.get(k) || d`: lookup with a default. -/
def mapGetD (m : List (α × β)) (k : α) (d : β) : β :=
  (mapGet? m k).getD d

end MapOps

/-- The key order of the replay sort:
`(a, b) => a.date.localeCompare(b.date)` compares only the date. -/
def dateLe (a b : Tx) : Prop := a.date ≤ b.date

instance : DecidableRel dateLe := fun a b => inferInstanceAs (Decidable (a.date ≤ b.date))

instance : IsTotal Tx dateLe := ⟨fun a b => Nat.le_total a.date b.date⟩

instance : IsTrans Tx dateLe := ⟨fun _ _ _ h₁ h₂ => Nat.le_trans h₁ h₂⟩

/-- The key order of the transaction-list query,
`.order("date", { ascending: false })`. -/
def dateGe (a b : Tx) : Prop := b.date ≤ a.date

instance : DecidableRel dateGe := fun a b => inferInstanceAs (Decidable (b.date ≤ a.date))

instance : IsTotal Tx dateGe := ⟨fun a b => Nat.le_total b.date a.date⟩

instance : IsTrans Tx dateGe := ⟨fun _ _ _ h₁ h₂ => Nat.le_trans h₂ h₁⟩

namespace Reports

/-- `[...allTransactions].sort((a, b) => a.date.localeCompare(b.date))`:
a stable sort on the date key alone (`Array.prototype.sort` is stable, and
every stable sort on a total key preorder yields the same list). -/
def sortedAllTransactions (ts : List Tx) : List Tx := List.insertionSort dateLe ts

/-- A value of the `dailyAccountBalances` map. -/
structure DailySnap where
  date : Nat
  accountId : String
  accountName : String
  balance : ℤ
deriving DecidableEq

/-- The balance-affecting part of the replay state: the running
`accountBalances` map and the `dailyAccountBalances` map (keyed by
`date|accountId`). -/
structure BalDaily where
  bal : List (String × ℤ)
  daily : List ((Nat × String) × DailySnap)
deriving DecidableEq

/-- The full replay state, including the `processedTransfers` set. -/
structure ReplayState where
  bal : List (String × ℤ)
  daily : List ((Nat × String) × DailySnap)
  processed : List String
deriving DecidableEq

/-- `transactionMap`: id → transaction lookup built over the sorted rows. -/
def transactionMap (ts : List Tx) : List (String × Tx) :=
  ts.foldl (fun m t => mapSet m t.id t) []

/-- `accountBalances` initialisation from each account's stored opening
balance. -/
def initialBalances (accs : List Account) : List (String × ℤ) :=
  accs.foldl (fun m a => mapSet m a.id a.balance) []

/-- Record the end-of-day snapshot for `(date, account)`, but only when the
account id has a matching fetched `Account` record. -/
def snapUpd (accs : List Account) (bd : BalDaily) (d : Nat) (aid : String)
    (v : ℤ) : BalDaily :=
  match accs.find? (fun a => decide (a.id = aid)) with
  | some a => { bd with daily := mapSet bd.daily (d, aid) ⟨d, aid, a.name, v⟩ }
  | none => bd

/-- The monetary effect of one row on balances and snapshots, using the
row's own `type` / `amount` / `account_id` / `destination_account_id`. -/
def applyTx (accs : List Account) (bd : BalDaily) (t : Tx) : BalDaily :=
  if t.ty = .transferencia then
    let originBalance := mapGetD bd.bal t.account_id 0
    let newOriginBalance := originBalance - t.amount
    let bd1 := snapUpd accs { bd with bal := mapSet bd.bal t.account_id newOriginBalance }
      t.date t.account_id newOriginBalance
    match t.destination_account_id with
    | some dest =>
      let destBalance := mapGetD bd1.bal dest 0
      let newDestBalance := destBalance + t.amount
      snapUpd accs { bd1 with bal := mapSet bd1.bal dest newDestBalance }
        t.date dest newDestBalance
    | none => bd1
  else
    let change := if t.ty = .receita then t.amount else -t.amount
    let newBalance := mapGetD bd.bal t.account_id 0 + change
    snapUpd accs { bd with bal := mapSet bd.bal t.account_id newBalance }
      t.date t.account_id newBalance

/-- The pair-based skip test of the replay: skip a transfer row when its
`transfer_pair_id` resolves in the transaction map to a row created
strictly earlier (`thisCreatedAt > pairCreatedAt`). -/
def pairSkip (tmap : List (String × Tx)) (t : Tx) : Bool :=
  match t.transfer_pair_id with
  | some pid =>
    match mapGet? tmap pid with
    | some p => decide (p.created_at < t.created_at)
    | none => false
  | none => false

/-- One iteration of the replay loop over the sorted transactions. -/
def replayStep (accs : List Account) (tmap : List (String × Tx))
    (s : ReplayState) (t : Tx) : ReplayState :=
  if t.ty = .transferencia then
    if t.id ∈ s.processed then s
    else if pairSkip tmap t then { s with processed := t.id :: s.processed }
    else
      let bd := applyTx accs ⟨s.bal, s.daily⟩ t
      { bal := bd.bal, daily := bd.daily,
        processed :=
          match t.transfer_pair_id with
          | some pid => pid :: t.id :: s.processed
          | none => t.id :: s.processed }
  else
    let bd := applyTx accs ⟨s.bal, s.daily⟩ t
    { bal := bd.bal, daily := bd.daily, processed := s.processed }

/-- The full balance replay of `Reports.fetchData`: sort every transaction
by date, then apply each row's effect with the transfer-pair skip. -/
def replay (accs : List Account) (ts : List Tx) : ReplayState :=
  (sortedAllTransactions ts).foldl
    (replayStep accs (transactionMap (sortedAllTransactions ts)))
    ⟨initialBalances accs, [], []⟩

/-- Specification-side replacement of `replayStep`: skip exactly the
statically-determined late legs, with no `processedTransfers` state. -/
def pureStep (accs : List Account) (tmap : List (String × Tx))
    (bd : BalDaily) (t : Tx) : BalDaily :=
  if t.ty = .transferencia ∧ pairSkip tmap t = true then bd else applyTx accs bd t

/-- The stateless replay: every row that is not a late transfer leg is
applied exactly once, in sorted order. -/
def pureReplay (accs : List Account) (ts : List Tx) : BalDaily :=
  (sortedAllTransactions ts).foldl
    (pureStep accs (transactionMap (sortedAllTransactions ts)))
    ⟨initialBalances accs, []⟩

/-- The key order of the snapshot display list,
`sort((a, b) => b.date.localeCompare(a.date))` (most recent first). -/
def snapDateGe (a b : DailySnap) : Prop := b.date ≤ a.date

instance : DecidableRel snapDateGe := fun a b => inferInstanceAs (Decidable (b.date ≤ a.date))

instance : IsTotal DailySnap snapDateGe := ⟨fun a b => Nat.le_total b.date a.date⟩

instance : IsTrans DailySnap snapDateGe := ⟨fun _ _ _ h₁ h₂ => Nat.le_trans h₂ h₁⟩

/-- Does a snapshot row survive the display filters? -/
def snapPasses (selectedAccounts : List String) (startDate endDate : Option Nat)
    (e : DailySnap) : Bool :=
  (if selectedAccounts = [] then true else selectedAccounts.contains e.accountId)
  && (match startDate with | some d => decide (d ≤ e.date) | none => true)
  && (match endDate with | some d => decide (e.date ≤ d) | none => true)

/-- The displayed snapshot list: the map's values, filtered by account set
and date bounds for display only, sorted date-descending. -/
def dailyBalancesList (accs : List Account) (ts : List Tx)
    (selectedAccounts : List String) (startDate endDate : Option Nat) :
    List DailySnap :=
  let entries := (replay accs ts).daily.map Prod.snd
  let e1 := if selectedAccounts = [] then entries
    else entries.filter (fun e => selectedAccounts.contains e.accountId)
  let e2 := match startDate with
    | some d => e1.filter (fun e => decide (d ≤ e.date))
    | none => e1
  let e3 := match endDate with
    | some d => e2.filter (fun e => decide (e.date ≤ d))
    | none => e2
  List.insertionSort snapDateGe e3

/-- A value of the `monthlyMap`. -/
structure MonthAgg where
  income : ℤ
  expense : ℤ
deriving DecidableEq

/-- An entry of the rendered monthly list. -/
structure MonthlyData where
  month : Nat
  income : ℤ
  expense : ℤ
  balance : ℤ
deriving DecidableEq

/-- One iteration of the monthly aggregation: transfers are skipped,
`receita` adds to the month's income, `despesa` to its expense. -/
def monthlyStep (m : List (Nat × MonthAgg)) (t : Tx) : List (Nat × MonthAgg) :=
  if t.ty = .transferencia then m
  else
    let month := t.date / 100
    let data := mapGetD m month ⟨0, 0⟩
    if t.ty = .receita then mapSet m month ⟨data.income + t.amount, data.expense⟩
    else mapSet m month ⟨data.income, data.expense + t.amount⟩

/-- The `monthlyMap` accumulated over the (filtered) transactions. -/
def monthlyMap (ts : List Tx) : List (Nat × MonthAgg) :=
  ts.foldl monthlyStep []

/-- Month-descending order of the rendered monthly list. -/
def monthGe (a b : MonthlyData) : Prop := b.month ≤ a.month

instance : DecidableRel monthGe := fun a b => inferInstanceAs (Decidable (b.month ≤ a.month))

instance : IsTotal MonthlyData monthGe := ⟨fun a b => Nat.le_total b.month a.month⟩

instance : IsTrans MonthlyData monthGe := ⟨fun _ _ _ h₁ h₂ => Nat.le_trans h₂ h₁⟩

/-- The rendered monthly list: each bucket with `balance = income - expense`,
sorted month-descending. -/
def monthly (ts : List Tx) : List MonthlyData :=
  List.insertionSort monthGe
    ((monthlyMap ts).map (fun p => ⟨p.1, p.2.income, p.2.expense, p.2.income - p.2.expense⟩))

/-- Budget progress percentage, guarded against a zero target:
`target !== 0 ? (balance / Math.abs(target)) * 100 : 0`. -/
def budgetPercentage (target balance : ℚ) : ℚ :=
  if target ≠ 0 then balance / |target| * 100 else 0

/-- `isPositiveTarget ? balance >= target : balance >= target`. -/
def budgetIsOnTrack (target balance : ℚ) : Bool :=
  if 0 ≤ target then decide (target ≤ balance) else decide (target ≤ balance)

/-- The progress-bar width, `Math.min(Math.abs(percentage), 100)`. -/
def budgetBarWidth (target balance : ℚ) : ℚ :=
  min |budgetPercentage target balance| 100

end Reports

namespace Dashboard

/-- One iteration of the dashboard's balance loop: every row is applied
with its own fields; no pair lookup, no skip. -/
def applyTransaction (m : List (String × ℤ)) (t : Tx) : List (String × ℤ) :=
  if t.ty = .transferencia then
    let m1 := mapSet m t.account_id (mapGetD m t.account_id 0 - t.amount)
    match t.destination_account_id with
    | some dest => mapSet m1 dest (mapGetD m1 dest 0 + t.amount)
    | none => m1
  else
    let change := if t.ty = .receita then t.amount else -t.amount
    mapSet m t.account_id (mapGetD m t.account_id 0 + change)

/-- `Dashboard.fetchAccounts`: fold every fetched row (the query is
restricted to `date <= today`) over the opening balances. -/
def currentBalances (accs : List Account) (today : Nat) (ts : List Tx) :
    List (String × ℤ) :=
  (ts.filter (fun t => decide (t.date ≤ today))).foldl applyTransaction
    (Reports.initialBalances accs)

end Dashboard

namespace TxPage

/-- The row filters of the Transactions query: a single-account filter
(`"all"` = `none`), a single-category filter, inclusive date bounds. -/
def rowMatches (accountFilter categoryFilter : Option String)
    (startDate endDate : Option Nat) (t : Tx) : Bool :=
  (match accountFilter with | some aid => decide (t.account_id = aid) | none => true)
  && (match categoryFilter with | some c => decide (t.category_id = some c) | none => true)
  && (match startDate with | some d => decide (d ≤ t.date) | none => true)
  && (match endDate with | some d => decide (t.date ≤ d) | none => true)

/-- The tag objects attached to one row: its `transaction_tags` links,
resolved against the fetched tags, dropping dangling links. -/
def tagsOf (tagRows : List Tag) (txTags : List (String × String)) (t : Tx) :
    List Tag :=
  (txTags.filter (fun p => decide (p.1 = t.id))).filterMap
    (fun p => tagRows.find? (fun tag => decide (tag.id = p.2)))

/-- `Transactions.fetchData`: the displayed row list — query filters and
date-descending order, then the selected-tags filter. -/
def displayedTransactions (ts : List Tx) (accountFilter categoryFilter : Option String)
    (startDate endDate : Option Nat) (tagRows : List Tag)
    (txTags : List (String × String)) (selectedTags : List String) : List Tx :=
  let rows := List.insertionSort dateGe
    (ts.filter (rowMatches accountFilter categoryFilter startDate endDate))
  if selectedTags = [] then rows
  else rows.filter (fun t =>
    (tagsOf tagRows txTags t).any (fun tag => selectedTags.contains tag.id))

end TxPage

namespace Reports

/-- Portfolio total: the computed balance of every fetched account, a
missing map entry reading as 0. -/
def sumAccs (accs : List Account) (m : List (String × ℤ)) : ℤ :=
  (accs.map (fun a => mapGetD m a.id 0)).sum

/-- Signed non-transfer contribution of a transaction list: `receita`
counts positively, `despesa` negatively, transfers not at all. -/
def netNonTransfer (l : List Tx) : ℤ :=
  (l.map (fun t => match t.ty with
    | .receita => t.amount
    | .despesa => -t.amount
    | .transferencia => 0)).sum

/-- Sum of the `receita` amounts dated in a given month. -/
def monthIncome (ts : List Tx) (mo : Nat) : ℤ :=
  ((ts.filter (fun t => decide (t.ty = .receita) && decide (t.date / 100 = mo))).map
    (fun t => t.amount)).sum

/-- Sum of the `despesa` amounts dated in a given month. -/
def monthExpense (ts : List Tx) (mo : Nat) : ℤ :=
  ((ts.filter (fun t => decide (t.ty = .despesa) && decide (t.date / 100 = mo))).map
    (fun t => t.amount)).sum

/-- Well-paired transaction log: row ids are pairwise distinct, and every
`transfer_pair_id` reference that resolves within the log points back to
the referring row, is itself a transfer, and carries a distinct
`created_at` timestamp. -/
def PairWF (ts : List Tx) : Prop :=
  (ts.map Tx.id).Nodup ∧
  ∀ t ∈ ts, t.ty = .transferencia → ∀ p ∈ ts, t.transfer_pair_id = some p.id →
    (p.ty = .transferencia ∧ p.transfer_pair_id = some t.id ∧
      p.created_at ≠ t.created_at)

instance (ts : List Tx) : Decidable (PairWF ts) := by
  unfold PairWF
  exact inferInstance

end Reports

section MapLemmas

variable {α β : Type} [DecidableEq α]

theorem mapGet?_set_self (m : List (α × β)) (k : α) (v : β) :
    mapGet? (mapSet m k v) k = some v := by
  induction m with
  | nil => simp [mapSet, mapGet?]
  | cons p rest ih =>
    obtain ⟨k₀, v₀⟩ := p
    by_cases h : k₀ = k
    · simp [mapSet, h, mapGet?]
    · simp [mapSet, h, mapGet?, ih]

theorem mapGet?_set_ne (m : List (α × β)) {k j : α} (v : β) (h : j ≠ k) :
    mapGet? (mapSet m k v) j = mapGet? m j := by
  induction m with
  | nil =>
    simp only [mapSet, mapGet?]
    exact if_neg (Ne.symm h)
  | cons p rest ih =>
    obtain ⟨k₀, v₀⟩ := p
    by_cases hk : k₀ = k
    · subst hk
      simp only [mapSet, if_pos rfl, mapGet?]
      rw [if_neg (Ne.symm h), if_neg (Ne.symm h)]
    · simp only [mapSet, if_neg hk, mapGet?]
      by_cases hj : k₀ = j
      · rw [if_pos hj, if_pos hj]
      · rw [if_neg hj, if_neg hj, ih]

theorem mapGetD_set_self (m : List (α × β)) (k : α) (v d : β) :
    mapGetD (mapSet m k v) k d = v := by
  simp [mapGetD, mapGet?_set_self]

theorem mapGetD_set_ne (m : List (α × β)) {k j : α} (v d : β) (h : j ≠ k) :
    mapGetD (mapSet m k v) j d = mapGetD m j d := by
  simp [mapGetD, mapGet?_set_ne m v h]

/-- Last write wins: setting the same key twice keeps only the second
value. -/
theorem mapSet_set_self (m : List (α × β)) (k : α) (v₁ v₂ : β) :
    mapSet (mapSet m k v₁) k v₂ = mapSet m k v₂ := by
  induction m with
  | nil => simp [mapSet]
  | cons p rest ih =>
    obtain ⟨k₀, v₀⟩ := p
    by_cases h : k₀ = k
    · simp [mapSet, h]
    · simp [mapSet, h, ih]

theorem mem_mapSet {m : List (α × β)} {k : α} {v : β} {p : α × β}
    (hp : p ∈ mapSet m k v) : p = (k, v) ∨ p ∈ m := by
  induction m with
  | nil => simpa [mapSet] using hp
  | cons q rest ih =>
    obtain ⟨k₀, v₀⟩ := q
    by_cases h : k₀ = k
    · simp only [mapSet, if_pos h, List.mem_cons] at hp
      rcases hp with hp | hp
      · exact Or.inl hp
      · exact Or.inr (List.mem_cons_of_mem _ hp)
    · simp only [mapSet, if_neg h, List.mem_cons] at hp
      rcases hp with hp | hp
      · exact Or.inr (by simp [hp])
      · rcases ih hp with hp | hp
        · exact Or.inl hp
        · exact Or.inr (List.mem_cons_of_mem _ hp)

/-- Folding `mapSet` over entries none of which carries the key leaves
that key's binding unchanged. -/
theorem mapGet?_foldl_set_of_not_mem {γ : Type} (key : γ → α) (val : γ → β)
    (l : List γ) (m : List (α × β)) (i : α) (h : ∀ b ∈ l, key b ≠ i) :
    mapGet? (l.foldl (fun m b => mapSet m (key b) (val b)) m) i = mapGet? m i := by
  induction l generalizing m with
  | nil => rfl
  | cons b rest ih =>
    have hb : key b ≠ i := h b (List.mem_cons_self _ _)
    have hrest : ∀ c ∈ rest, key c ≠ i := fun c hc => h c (List.mem_cons_of_mem _ hc)
    simp only [List.foldl_cons]
    rw [ih _ hrest, mapGet?_set_ne _ _ (Ne.symm hb)]

/-- With pairwise-distinct keys, folding `mapSet` binds each listed key
to its own value. -/
theorem mapGet?_foldl_set_of_mem {γ : Type} (key : γ → α) (val : γ → β)
    (l : List γ) (hnd : (l.map key).Nodup) {b : γ} (hb : b ∈ l)
    (m : List (α × β)) :
    mapGet? (l.foldl (fun m c => mapSet m (key c) (val c)) m) (key b) = some (val b) := by
  induction l generalizing m with
  | nil => cases hb
  | cons c rest ih =>
    simp only [List.map_cons, List.nodup_cons] at hnd
    rcases List.mem_cons.mp hb with hb | hb
    · subst hb
      have hrest : ∀ u ∈ rest, key u ≠ key b := by
        intro u hu he
        exact hnd.1 (he ▸ List.mem_map_of_mem key hu)
      simp only [List.foldl_cons]
      rw [mapGet?_foldl_set_of_not_mem key val rest _ _ hrest, mapGet?_set_self]
    · simp only [List.foldl_cons]
      exact ih hnd.2 hb _

end MapLemmas

namespace Reports

theorem snapUpd_bal (accs : List Account) (bd : BalDaily) (d : Nat)
    (aid : String) (v : ℤ) : (snapUpd accs bd d aid v).bal = bd.bal := by
  unfold snapUpd
  cases accs.find? (fun a => decide (a.id = aid)) <;> rfl

theorem applyTx_bal_transfer (accs : List Account) (bd : BalDaily) {t : Tx}
    (ht : t.ty = .transferencia) {dest : String}
    (hd : t.destination_account_id = some dest) :
    (applyTx accs bd t).bal =
      mapSet (mapSet bd.bal t.account_id (mapGetD bd.bal t.account_id 0 - t.amount)) dest
        (mapGetD (mapSet bd.bal t.account_id (mapGetD bd.bal t.account_id 0 - t.amount)) dest 0
          + t.amount) := by
  unfold applyTx
  rw [if_pos ht, hd]
  simp only [snapUpd_bal]

theorem applyTx_bal_transfer_nodest (accs : List Account) (bd : BalDaily) {t : Tx}
    (ht : t.ty = .transferencia) (hd : t.destination_account_id = none) :
    (applyTx accs bd t).bal =
      mapSet bd.bal t.account_id (mapGetD bd.bal t.account_id 0 - t.amount) := by
  unfold applyTx
  rw [if_pos ht, hd]
  simp only [snapUpd_bal]

theorem applyTx_bal_nontransfer (accs : List Account) (bd : BalDaily) {t : Tx}
    (ht : ¬ t.ty = .transferencia) :
    (applyTx accs bd t).bal =
      mapSet bd.bal t.account_id
        (mapGetD bd.bal t.account_id 0 + (if t.ty = .receita then t.amount else -t.amount)) := by
  unfold applyTx
  rw [if_neg ht]
  simp only [snapUpd_bal]

theorem initialBalances_get {accs : List Account}
    (hnd : (accs.map (fun a => a.id)).Nodup) {a : Account} (ha : a ∈ accs) :
    mapGet? (initialBalances accs) a.id = some a.balance := by
  have h := mapGet?_foldl_set_of_mem (fun x : Account => x.id)
    (fun x : Account => x.balance) accs hnd ha []
  exact h

theorem initialBalances_get_not_mem {accs : List Account} {i : String}
    (h : ∀ a ∈ accs, a.id ≠ i) :
    mapGet? (initialBalances accs) i = none := by
  have hh := mapGet?_foldl_set_of_not_mem (fun x : Account => x.id)
    (fun x : Account => x.balance) accs [] i h
  exact hh

theorem transactionMap_get {ts : List Tx} (hnd : (ts.map Tx.id).Nodup)
    {t : Tx} (ht : t ∈ ts) :
    mapGet? (transactionMap ts) t.id = some t := by
  have h := mapGet?_foldl_set_of_mem (fun x : Tx => x.id) (fun x : Tx => x) ts hnd ht []
  exact h

theorem sumAccs_set_not_mem {accs : List Account} {k : String}
    (h : ∀ a ∈ accs, a.id ≠ k) (m : List (String × ℤ)) (v : ℤ) :
    sumAccs accs (mapSet m k v) = sumAccs accs m := by
  unfold sumAccs
  congr 1
  exact List.map_congr_left (fun a ha => mapGetD_set_ne m v 0 (h a ha))

theorem sumAccs_set {accs : List Account} {k : String}
    (hnd : (accs.map (fun a => a.id)).Nodup) (hk : k ∈ accs.map (fun a => a.id))
    (m : List (String × ℤ)) (v : ℤ) :
    sumAccs accs (mapSet m k v) = sumAccs accs m + (v - mapGetD m k 0) := by
  induction accs with
  | nil => simp at hk
  | cons a rest ih =>
    simp only [List.map_cons, List.nodup_cons] at hnd
    rcases List.mem_cons.mp hk with hk | hk
    · subst hk
      have hrest : ∀ b ∈ rest, b.id ≠ a.id := by
        intro b hb he
        exact hnd.1 (he ▸ List.mem_map_of_mem (fun x => x.id) hb)
      simp only [sumAccs, List.map_cons, List.sum_cons]
      rw [show ((rest.map (fun b => mapGetD (mapSet m a.id v) b.id 0)).sum
            = (rest.map (fun b => mapGetD m b.id 0)).sum) from
          congrArg List.sum (List.map_congr_left
            (fun b hb => mapGetD_set_ne m v 0 (hrest b hb))),
        mapGetD_set_self]
      ring
    · have hane : a.id ≠ k := by
        intro he
        exact hnd.1 (he ▸ hk)
      simp only [sumAccs, List.map_cons, List.sum_cons] at *
      rw [mapGetD_set_ne m v 0 hane, ih hnd.2 hk]
      ring

theorem sumAccs_init {accs : List Account}
    (hnd : (accs.map (fun a => a.id)).Nodup) :
    sumAccs accs (initialBalances accs) = (accs.map (fun a => a.balance)).sum := by
  unfold sumAccs
  congr 1
  refine List.map_congr_left (fun a ha => ?_)
  rw [mapGetD, initialBalances_get hnd ha]
  rfl

end Reports

namespace Reports

theorem monthlyStep_transferencia {t : Tx} (m : List (Nat × MonthAgg))
    (ht : t.ty = .transferencia) : monthlyStep m t = m := by
  unfold monthlyStep
  rw [if_pos ht]

theorem monthlyStep_receita {t : Tx} (m : List (Nat × MonthAgg))
    (ht : t.ty = .receita) :
    monthlyStep m t = mapSet m (t.date / 100)
      ⟨(mapGetD m (t.date / 100) ⟨0, 0⟩).income + t.amount,
        (mapGetD m (t.date / 100) ⟨0, 0⟩).expense⟩ := by
  unfold monthlyStep
  rw [if_neg (by rw [ht]; intro h; cases h), if_pos ht]

theorem monthlyStep_despesa {t : Tx} (m : List (Nat × MonthAgg))
    (ht : t.ty = .despesa) :
    monthlyStep m t = mapSet m (t.date / 100)
      ⟨(mapGetD m (t.date / 100) ⟨0, 0⟩).income,
        (mapGetD m (t.date / 100) ⟨0, 0⟩).expense + t.amount⟩ := by
  unfold monthlyStep
  rw [if_neg (by rw [ht]; intro h; cases h), if_neg (by rw [ht]; intro h; cases h)]

theorem monthlyStep_getD_income (init : List (Nat × MonthAgg)) (t : Tx) (mo : Nat) :
    (mapGetD (monthlyStep init t) mo ⟨0, 0⟩).income
      = (mapGetD init mo ⟨0, 0⟩).income
        + (if t.ty = .receita ∧ t.date / 100 = mo then t.amount else 0) := by
  cases hty : t.ty with
  | transferencia => simp [monthlyStep_transferencia init hty, hty]
  | receita =>
    rw [monthlyStep_receita init hty]
    by_cases hmo : t.date / 100 = mo
    · rw [hmo, mapGetD_set_self]
      simp [hty, hmo]
    · rw [mapGetD_set_ne _ _ _ (fun h => hmo h.symm)]
      simp [hmo]
  | despesa =>
    rw [monthlyStep_despesa init hty]
    by_cases hmo : t.date / 100 = mo
    · rw [hmo, mapGetD_set_self]
      simp [hty]
    · rw [mapGetD_set_ne _ _ _ (fun h => hmo h.symm)]
      simp [hty]

theorem monthlyStep_getD_expense (init : List (Nat × MonthAgg)) (t : Tx) (mo : Nat) :
    (mapGetD (monthlyStep init t) mo ⟨0, 0⟩).expense
      = (mapGetD init mo ⟨0, 0⟩).expense
        + (if t.ty = .despesa ∧ t.date / 100 = mo then t.amount else 0) := by
  cases hty : t.ty with
  | transferencia => simp [monthlyStep_transferencia init hty, hty]
  | receita =>
    rw [monthlyStep_receita init hty]
    by_cases hmo : t.date / 100 = mo
    · rw [hmo, mapGetD_set_self]
      simp [hty]
    · rw [mapGetD_set_ne _ _ _ (fun h => hmo h.symm)]
      simp [hty]
  | despesa =>
    rw [monthlyStep_despesa init hty]
    by_cases hmo : t.date / 100 = mo
    · rw [hmo, mapGetD_set_self]
      simp [hty, hmo]
    · rw [mapGetD_set_ne _ _ _ (fun h => hmo h.symm)]
      simp [hmo]

theorem monthIncome_cons (t : Tx) (rest : List Tx) (mo : Nat) :
    monthIncome (t :: rest) mo
      = (if t.ty = .receita ∧ t.date / 100 = mo then t.amount else 0)
        + monthIncome rest mo := by
  unfold monthIncome
  by_cases hc : t.ty = .receita ∧ t.date / 100 = mo
  · rw [if_pos hc]
    simp [List.filter_cons, hc.1, hc.2]
  · rw [if_neg hc]
    have hb : ¬ (decide (t.ty = .receita) && decide (t.date / 100 = mo)) = true := by
      simpa [Bool.and_eq_true, decide_eq_true_iff] using hc
    simp [List.filter_cons, hb]

theorem monthExpense_cons (t : Tx) (rest : List Tx) (mo : Nat) :
    monthExpense (t :: rest) mo
      = (if t.ty = .despesa ∧ t.date / 100 = mo then t.amount else 0)
        + monthExpense rest mo := by
  unfold monthExpense
  by_cases hc : t.ty = .despesa ∧ t.date / 100 = mo
  · rw [if_pos hc]
    simp [List.filter_cons, hc.1, hc.2]
  · rw [if_neg hc]
    have hb : ¬ (decide (t.ty = .despesa) && decide (t.date / 100 = mo)) = true := by
      simpa [Bool.and_eq_true, decide_eq_true_iff] using hc
    simp [List.filter_cons, hb]

theorem monthlyMap_fold_income (ts : List Tx) :
    ∀ (init : List (Nat × MonthAgg)) (mo : Nat),
      (mapGetD (ts.foldl monthlyStep init) mo ⟨0, 0⟩).income
        = (mapGetD init mo ⟨0, 0⟩).income + monthIncome ts mo := by
  induction ts with
  | nil => intro init mo; simp [monthIncome]
  | cons t rest ih =>
    intro init mo
    simp only [List.foldl_cons]
    rw [ih, monthlyStep_getD_income, monthIncome_cons]
    ring

theorem monthlyMap_fold_expense (ts : List Tx) :
    ∀ (init : List (Nat × MonthAgg)) (mo : Nat),
      (mapGetD (ts.foldl monthlyStep init) mo ⟨0, 0⟩).expense
        = (mapGetD init mo ⟨0, 0⟩).expense + monthExpense ts mo := by
  induction ts with
  | nil => intro init mo; simp [monthExpense]
  | cons t rest ih =>
    intro init mo
    simp only [List.foldl_cons]
    rw [ih, monthlyStep_getD_expense, monthExpense_cons]
    ring

end Reports

/-- C8: every monthly bucket's income is the sum of the `receita` amounts
dated in that month, its expense the sum of the `despesa` amounts dated in
that month, `transferencia` rows count toward neither, and every rendered
monthly entry has `balance = income - expense`. -/
theorem claim_C8_monthly_aggregation (ts : List Tx) (mo : Nat) :
    (mapGetD (Reports.monthlyMap ts) mo ⟨0, 0⟩).income = Reports.monthIncome ts mo
    ∧ (mapGetD (Reports.monthlyMap ts) mo ⟨0, 0⟩).expense = Reports.monthExpense ts mo
    ∧ ∀ e ∈ Reports.monthly ts, e.balance = e.income - e.expense := by
  refine ⟨?_, ?_, ?_⟩
  · rw [Reports.monthlyMap, Reports.monthlyMap_fold_income]
    simp [mapGetD, mapGet?]
  · rw [Reports.monthlyMap, Reports.monthlyMap_fold_expense]
    simp [mapGetD, mapGet?]
  · intro e he
    rw [Reports.monthly, List.mem_insertionSort] at he
    obtain ⟨p, _, hp⟩ := List.mem_map.mp he
    rw [← hp]

/-- C9: with a non-zero target the reported budget percentage is
`balance / |target| * 100` (unclamped), a zero target reports exactly 0
rather than a division by zero, the progress-bar width never exceeds 100,
and the budget is on track exactly when `balance >= target`, the same
comparison for positive and negative targets. -/
theorem claim_C9_budget_progress (target balance : ℚ) :
    (target ≠ 0 → Reports.budgetPercentage target balance = balance / |target| * 100)
    ∧ Reports.budgetPercentage 0 balance = 0
    ∧ (Reports.budgetIsOnTrack target balance = true ↔ target ≤ balance)
    ∧ Reports.budgetBarWidth target balance ≤ 100 := by
  refine ⟨fun h => ?_, ?_, ?_, ?_⟩
  · rw [Reports.budgetPercentage, if_pos h]
  · rw [Reports.budgetPercentage]
    simp
  · rw [Reports.budgetIsOnTrack]
    split <;> simp
  · rw [Reports.budgetBarWidth]
    exact min_le_right _ _

/-- Witness for C9 at the spec's own scenario (target 400, balance 500):
the hypothesis `target ≠ 0` holds and the reported percentage is the
unclamped ratio, which evaluates to 125. -/
theorem claim_C9_budget_progress_witness :
    ((400 : ℚ) ≠ 0 ∧ Reports.budgetPercentage 400 500 = 500 / |(400 : ℚ)| * 100)
    ∧ Reports.budgetPercentage 400 500 = 125 := by
  refine ⟨⟨by norm_num, (claim_C9_budget_progress 400 500).1 (by norm_num)⟩, ?_⟩
  rw [(claim_C9_budget_progress 400 500).1 (by norm_num)]
  norm_num

/-- C7: the daily snapshot map has last-write-wins overwrite semantics —
setting the same `(date, account)` key twice keeps only the second value —
and on the spec's scenario (same date, same account, +100 then -30 on an
opening balance of 1000) the replay stores the single snapshot 1070. -/
theorem claim_C7_snapshot_overwrite :
    (∀ (m : List ((Nat × String) × Reports.DailySnap)) (k : Nat × String)
        (v₁ v₂ : Reports.DailySnap), mapSet (mapSet m k v₁) k v₂ = mapSet m k v₂)
    ∧ (Reports.replay [⟨"A", "Conta A", 1000⟩]
        [⟨"t1", .receita, 100, 20240105, 1, "A", none, none, none⟩,
         ⟨"t2", .despesa, 30, 20240105, 2, "A", none, none, none⟩]).daily
      = [((20240105, "A"), ⟨20240105, "A", "Conta A", 1070⟩)] :=
  ⟨fun m k v₁ v₂ => mapSet_set_self m k v₁ v₂, by decide⟩

/-- C6: display filtering of the daily-balance snapshot list only selects
which rows are surfaced — a snapshot row appears under a filter
configuration exactly when it appears in the unfiltered output and passes
the account-set and inclusive date-bound tests; its balance value is the
one computed by the full, unfiltered replay either way. -/
theorem claim_C6_filters_only_select (accs : List Account) (ts : List Tx)
    (sel : List String) (sd ed : Option Nat) (e : Reports.DailySnap) :
    e ∈ Reports.dailyBalancesList accs ts sel sd ed ↔
      (e ∈ Reports.dailyBalancesList accs ts [] none none
        ∧ Reports.snapPasses sel sd ed e = true) := by
  unfold Reports.dailyBalancesList Reports.snapPasses
  by_cases hsel : sel = [] <;>
    cases sd <;> cases ed <;>
      simp [hsel, List.mem_insertionSort, List.mem_filter, and_assoc] <;>
        (intros; tauto)

namespace Reports

theorem snapUpd_daily_mem {accs : List Account} {bd : BalDaily} {d : Nat}
    {aid : String} {v : ℤ} {p : (Nat × String) × DailySnap}
    (hp : p ∈ (snapUpd accs bd d aid v).daily) :
    p ∈ bd.daily ∨ ∃ a ∈ accs, a.id = p.2.accountId := by
  unfold snapUpd at hp
  cases hfind : accs.find? (fun a => decide (a.id = aid)) with
  | none =>
    rw [hfind] at hp
    exact Or.inl hp
  | some a =>
    rw [hfind] at hp
    rcases mem_mapSet hp with h | h
    · right
      refine ⟨a, List.mem_of_find?_eq_some hfind, ?_⟩
      have hid : a.id = aid := by
        have hh := List.find?_some hfind
        simpa using hh
      rw [h]
      exact hid
    · exact Or.inl h

theorem applyTx_daily_mem {accs : List Account} {bd : BalDaily} {t : Tx}
    {p : (Nat × String) × DailySnap} (hp : p ∈ (applyTx accs bd t).daily) :
    p ∈ bd.daily ∨ ∃ a ∈ accs, a.id = p.2.accountId := by
  unfold applyTx at hp
  by_cases h1 : t.ty = .transferencia
  · rw [if_pos h1] at hp
    simp only at hp
    cases hd : t.destination_account_id with
    | some dest =>
      rw [hd] at hp
      rcases snapUpd_daily_mem hp with h | h
      · rcases snapUpd_daily_mem h with h2 | h2
        · exact Or.inl h2
        · exact Or.inr h2
      · exact Or.inr h
    | none =>
      rw [hd] at hp
      rcases snapUpd_daily_mem hp with h | h
      · exact Or.inl h
      · exact Or.inr h
  · rw [if_neg h1] at hp
    simp only at hp
    rcases snapUpd_daily_mem hp with h | h
    · exact Or.inl h
    · exact Or.inr h

theorem replayStep_daily_mem {accs : List Account} {tmap : List (String × Tx)}
    {s : ReplayState} {t : Tx} {p : (Nat × String) × DailySnap}
    (hp : p ∈ (replayStep accs tmap s t).daily) :
    p ∈ s.daily ∨ ∃ a ∈ accs, a.id = p.2.accountId := by
  unfold replayStep at hp
  by_cases h1 : t.ty = .transferencia
  · rw [if_pos h1] at hp
    by_cases h2 : t.id ∈ s.processed
    · rw [if_pos h2] at hp
      exact Or.inl hp
    · rw [if_neg h2] at hp
      by_cases h3 : pairSkip tmap t = true
      · rw [if_pos h3] at hp
        exact Or.inl hp
      · rw [if_neg h3] at hp
        exact applyTx_daily_mem hp
  · rw [if_neg h1] at hp
    exact applyTx_daily_mem hp

theorem replay_daily_sound (accs : List Account) (tmap : List (String × Tx)) :
    ∀ (l : List Tx) (s : ReplayState),
      (∀ p ∈ s.daily, ∃ a ∈ accs, a.id = p.2.accountId) →
      ∀ p ∈ (l.foldl (replayStep accs tmap) s).daily,
        ∃ a ∈ accs, a.id = p.2.accountId := by
  intro l
  induction l with
  | nil => intro s hs; exact hs
  | cons t rest ih =>
    intro s hs
    simp only [List.foldl_cons]
    apply ih
    intro p hp
    rcases replayStep_daily_mem hp with h | h
    · exact hs p h
    · exact h

end Reports

/-- C10: the balance replay is total on dangling account references — a
transaction whose account is unknown still goes through, its prior
running balance defaulting to 0 before its effect is applied, and the
snapshot map never receives a row for an account id with no matching
`Account` record. -/
theorem claim_C10_dangling_account_refs :
    (∀ (accs : List Account) (ts : List Tx) (p : (Nat × String) × Reports.DailySnap),
        p ∈ (Reports.replay accs ts).daily → ∃ a ∈ accs, a.id = p.2.accountId)
    ∧ (∀ (accs : List Account) (t : Tx), t.ty = .receita →
        (∀ a ∈ accs, a.id ≠ t.account_id) →
        mapGetD (Reports.replay accs [t]).bal t.account_id 0 = t.amount
        ∧ (Reports.replay accs [t]).daily = []) := by
  constructor
  · intro accs ts p hp
    exact Reports.replay_daily_sound accs _ _ _ (fun q hq => absurd hq (by simp)) p hp
  · intro accs t hty hacc
    have hfind : accs.find? (fun a => decide (a.id = t.account_id)) = none := by
      apply List.find?_eq_none.mpr
      intro a ha
      simpa using hacc a ha
    have hget : mapGet? (Reports.initialBalances accs) t.account_id = none :=
      Reports.initialBalances_get_not_mem hacc
    have hne : ¬ t.ty = .transferencia := by
      rw [hty]
      intro h
      cases h
    have hrep : Reports.replay accs [t]
        = ⟨mapSet (Reports.initialBalances accs) t.account_id
            (mapGetD (Reports.initialBalances accs) t.account_id 0
              + (if t.ty = .receita then t.amount else -t.amount)), [], []⟩ := by
      unfold Reports.replay
      show Reports.replayStep accs _ ⟨Reports.initialBalances accs, [], []⟩ t = _
      unfold Reports.replayStep
      rw [if_neg hne]
      unfold Reports.applyTx
      rw [if_neg hne]
      unfold Reports.snapUpd
      rw [hfind]
    rw [hrep]
    constructor
    · rw [mapGetD_set_self]
      rw [mapGetD, hget, hty]
      simp
    · rfl

/-- Witness for C10: a lone income transaction on an unknown account id
is applied from a default prior balance of 0 and emits no snapshot. -/
theorem claim_C10_dangling_account_refs_witness :
    ((⟨"t9", .receita, 5, 20240101, 1, "ghost", none, none, none⟩ : Tx).ty = .receita
      ∧ ∀ a ∈ ([] : List Account), a.id ≠ "ghost")
    ∧ mapGetD (Reports.replay []
        [⟨"t9", .receita, 5, 20240101, 1, "ghost", none, none, none⟩]).bal "ghost" 0 = 5
    ∧ (Reports.replay []
        [⟨"t9", .receita, 5, 20240101, 1, "ghost", none, none, none⟩]).daily = [] :=
  ⟨⟨rfl, by simp⟩,
    claim_C10_dangling_account_refs.2 []
      ⟨"t9", .receita, 5, 20240101, 1, "ghost", none, none, none⟩ rfl (by simp)⟩

/-- C2 counterexample: a complete transfer pair (debit leg created first)
is displayed TWICE by the Transactions page when no account filter is
active — the page has no transfer-pair deduplication — refuting "the
display list contains exactly one of {A, B} under every account-filter
configuration". -/
theorem claim_C2_counterexample_both_legs_shown :
    (⟨"t1", .transferencia, 200, 20240102, 1, "A", some "B", some "t2", none⟩ : Tx)
      ∈ TxPage.displayedTransactions
        [⟨"t1", .transferencia, 200, 20240102, 1, "A", some "B", some "t2", none⟩,
         ⟨"t2", .transferencia, 200, 20240102, 2, "B", some "A", some "t1", none⟩]
        none none none none [] [] []
    ∧ (⟨"t2", .transferencia, 200, 20240102, 2, "B", some "A", some "t1", none⟩ : Tx)
      ∈ TxPage.displayedTransactions
        [⟨"t1", .transferencia, 200, 20240102, 1, "A", some "B", some "t2", none⟩,
         ⟨"t2", .transferencia, 200, 20240102, 2, "B", some "A", some "t1", none⟩]
        none none none none [] [] [] := by
  constructor <;> decide

/-- C2 amended: the Transactions page performs no transfer-pair
deduplication. For a pair whose legs sit on different accounts, a
single-account filter on one leg's account surfaces exactly that leg
(never zero, never both), while with no account filter both legs are
displayed. -/
theorem claim_C2_amended_display_per_filter (ts : List Tx)
    (tagRows : List Tag) (txTags : List (String × String)) (a b : Tx)
    (ha : a ∈ ts) (hb : b ∈ ts) (hne : a.account_id ≠ b.account_id) :
    (a ∈ TxPage.displayedTransactions ts (some a.account_id) none none none tagRows txTags []
      ∧ b ∉ TxPage.displayedTransactions ts (some a.account_id) none none none tagRows txTags [])
    ∧ (a ∈ TxPage.displayedTransactions ts none none none none tagRows txTags []
      ∧ b ∈ TxPage.displayedTransactions ts none none none none tagRows txTags []) := by
  unfold TxPage.displayedTransactions TxPage.rowMatches
  simp [List.mem_insertionSort, List.mem_filter, ha, hb, hne, Ne.symm hne]

/-- Witness for the amended C2 at a concrete pair. -/
theorem claim_C2_amended_display_per_filter_witness :
    ((⟨"t1", .transferencia, 200, 20240102, 1, "A", some "B", some "t2", none⟩ : Tx)
        ∈ [⟨"t1", .transferencia, 200, 20240102, 1, "A", some "B", some "t2", none⟩,
           ⟨"t2", .transferencia, 200, 20240102, 2, "B", some "A", some "t1", none⟩]
      ∧ ("A" : String) ≠ "B")
    ∧ (⟨"t1", .transferencia, 200, 20240102, 1, "A", some "B", some "t2", none⟩ : Tx)
        ∈ TxPage.displayedTransactions
          [⟨"t1", .transferencia, 200, 20240102, 1, "A", some "B", some "t2", none⟩,
           ⟨"t2", .transferencia, 200, 20240102, 2, "B", some "A", some "t1", none⟩]
          (some "A") none none none [] [] []
    ∧ (⟨"t2", .transferencia, 200, 20240102, 2, "B", some "A", some "t1", none⟩ : Tx)
        ∉ TxPage.displayedTransactions
          [⟨"t1", .transferencia, 200, 20240102, 1, "A", some "B", some "t2", none⟩,
           ⟨"t2", .transferencia, 200, 20240102, 2, "B", some "A", some "t1", none⟩]
          (some "A") none none none [] [] [] := by
  refine ⟨⟨by decide, by decide⟩, ?_, ?_⟩
  · exact (claim_C2_amended_display_per_filter
      [⟨"t1", .transferencia, 200, 20240102, 1, "A", some "B", some "t2", none⟩,
       ⟨"t2", .transferencia, 200, 20240102, 2, "B", some "A", some "t1", none⟩] [] []
      ⟨"t1", .transferencia, 200, 20240102, 1, "A", some "B", some "t2", none⟩
      ⟨"t2", .transferencia, 200, 20240102, 2, "B", some "A", some "t1", none⟩
      (by decide) (by decide) (by decide)).1.1
  · exact (claim_C2_amended_display_per_filter
      [⟨"t1", .transferencia, 200, 20240102, 1, "A", some "B", some "t2", none⟩,
       ⟨"t2", .transferencia, 200, 20240102, 2, "B", some "A", some "t1", none⟩] [] []
      ⟨"t1", .transferencia, 200, 20240102, 1, "A", some "B", some "t2", none⟩
      ⟨"t2", .transferencia, 200, 20240102, 2, "B", some "A", some "t1", none⟩
      (by decide) (by decide) (by decide)).1.2

/-- C3: the dashboard's balance computation applies both mirrored rows of
a transfer pair independently, so the pair nets to zero on both accounts,
while the Reports replay restricted to `date <= today` applies the pair
once. Failing input: opening balances A = 1000, B = 0 and a 200 transfer
A → B dated before today; the dashboard reports A = 1000, B = 0 where the
restricted replay yields A = 800, B = 200. -/
theorem claim_C3_dashboard_diverges_from_replay :
    mapGetD (Dashboard.currentBalances
        [⟨"A", "Conta A", 1000⟩, ⟨"B", "Conta B", 0⟩] 20240131
        [⟨"t1", .transferencia, 200, 20240102, 1, "A", some "B", some "t2", none⟩,
         ⟨"t2", .transferencia, 200, 20240102, 2, "B", some "A", some "t1", none⟩])
        "A" 0 = 1000
    ∧ mapGetD (Dashboard.currentBalances
        [⟨"A", "Conta A", 1000⟩, ⟨"B", "Conta B", 0⟩] 20240131
        [⟨"t1", .transferencia, 200, 20240102, 1, "A", some "B", some "t2", none⟩,
         ⟨"t2", .transferencia, 200, 20240102, 2, "B", some "A", some "t1", none⟩])
        "B" 0 = 0
    ∧ mapGetD (Reports.replay
        [⟨"A", "Conta A", 1000⟩, ⟨"B", "Conta B", 0⟩]
        ([⟨"t1", .transferencia, 200, 20240102, 1, "A", some "B", some "t2", none⟩,
          ⟨"t2", .transferencia, 200, 20240102, 2, "B", some "A", some "t1", none⟩].filter
          (fun t => decide (t.date ≤ 20240131)))).bal
        "A" 0 = 800
    ∧ mapGetD (Reports.replay
        [⟨"A", "Conta A", 1000⟩, ⟨"B", "Conta B", 0⟩]
        ([⟨"t1", .transferencia, 200, 20240102, 1, "A", some "B", some "t2", none⟩,
          ⟨"t2", .transferencia, 200, 20240102, 2, "B", some "A", some "t1", none⟩].filter
          (fun t => decide (t.date ≤ 20240131)))).bal
        "B" 0 = 200 := by
  refine ⟨by decide, by decide, by decide, by decide⟩

/-- C5 counterexample: the replay sort compares only `date`; two rows on
the same date stay in fetched order even when their `created_at`
timestamps are descending, refuting "ties within the same date are broken
by `created_at` ascending". -/
theorem claim_C5_counterexample_no_created_at_tiebreak :
    ¬ List.Pairwise
      (fun a b : Tx => a.date < b.date ∨ (a.date = b.date ∧ a.created_at ≤ b.created_at))
      (Reports.sortedAllTransactions
        [⟨"x", .receita, 1, 20240101, 5, "A", none, none, none⟩,
         ⟨"y", .receita, 1, 20240101, 3, "A", none, none, none⟩]) := by
  decide

/-- C5 amended: the replay sorts all transactions by `date` ascending with
a stable sort — the output is a sorted permutation of the input, and two
rows sharing a date keep their fetched relative order; `created_at` is
not consulted for ordering. -/
theorem claim_C5_amended_stable_date_sort (ts : List Tx) :
    (Reports.sortedAllTransactions ts).Sorted dateLe
    ∧ List.Perm (Reports.sortedAllTransactions ts) ts
    ∧ ∀ a b : Tx, a.date = b.date → List.Sublist [a, b] ts →
        List.Sublist [a, b] (Reports.sortedAllTransactions ts) := by
  refine ⟨List.sorted_insertionSort dateLe ts, List.perm_insertionSort dateLe ts, ?_⟩
  intro a b hd hab
  exact List.pair_sublist_insertionSort (show dateLe a b from le_of_eq hd) hab

/-- Witness for the amended C5 at a concrete same-date list. -/
theorem claim_C5_amended_stable_date_sort_witness :
    ((⟨"x", .receita, 1, 20240101, 5, "A", none, none, none⟩ : Tx).date
        = (⟨"y", .receita, 1, 20240101, 3, "A", none, none, none⟩ : Tx).date
      ∧ List.Sublist
        [⟨"x", .receita, 1, 20240101, 5, "A", none, none, none⟩,
         ⟨"y", .receita, 1, 20240101, 3, "A", none, none, none⟩]
        [(⟨"x", .receita, 1, 20240101, 5, "A", none, none, none⟩ : Tx),
         ⟨"y", .receita, 1, 20240101, 3, "A", none, none, none⟩])
    ∧ List.Sublist
        [(⟨"x", .receita, 1, 20240101, 5, "A", none, none, none⟩ : Tx),
         ⟨"y", .receita, 1, 20240101, 3, "A", none, none, none⟩]
        (Reports.sortedAllTransactions
          [⟨"x", .receita, 1, 20240101, 5, "A", none, none, none⟩,
           ⟨"y", .receita, 1, 20240101, 3, "A", none, none, none⟩]) :=
  ⟨⟨rfl, List.Sublist.refl _⟩,
    (claim_C5_amended_stable_date_sort
      [⟨"x", .receita, 1, 20240101, 5, "A", none, none, none⟩,
       ⟨"y", .receita, 1, 20240101, 3, "A", none, none, none⟩]).2.2
      ⟨"x", .receita, 1, 20240101, 5, "A", none, none, none⟩
      ⟨"y", .receita, 1, 20240101, 3, "A", none, none, none⟩
      rfl (List.Sublist.refl _)⟩

namespace Reports

theorem netNonTransfer_cons (t : Tx) (rest : List Tx) :
    netNonTransfer (t :: rest)
      = (match t.ty with
          | .receita => t.amount
          | .despesa => -t.amount
          | .transferencia => 0) + netNonTransfer rest := by
  simp [netNonTransfer]

theorem sumAccs_replayStep (accs : List Account) (tmap : List (String × Tx))
    (hnd : (accs.map (fun a => a.id)).Nodup) (s : ReplayState) (t : Tx)
    (hacct : t.account_id ∈ accs.map (fun a => a.id))
    (htr : t.ty = .transferencia →
      ∃ dest, t.destination_account_id = some dest
        ∧ dest ∈ accs.map (fun a => a.id)) :
    sumAccs accs (replayStep accs tmap s t).bal
      = sumAccs accs s.bal
        + (match t.ty with
            | .receita => t.amount
            | .despesa => -t.amount
            | .transferencia => 0) := by
  cases hty : t.ty with
  | transferencia =>
    unfold replayStep
    rw [if_pos hty]
    by_cases h2 : t.id ∈ s.processed
    · rw [if_pos h2]
      simp
    · rw [if_neg h2]
      by_cases h3 : pairSkip tmap t = true
      · rw [if_pos h3]
        simp
      · rw [if_neg h3]
        obtain ⟨dest, hdest, hdmem⟩ := htr hty
        show sumAccs accs (applyTx accs ⟨s.bal, s.daily⟩ t).bal = _
        rw [applyTx_bal_transfer accs ⟨s.bal, s.daily⟩ hty hdest]
        rw [sumAccs_set hnd hdmem, sumAccs_set hnd hacct]
        ring
  | receita =>
    have hne : ¬ t.ty = .transferencia := by
      rw [hty]
      intro h
      cases h
    unfold replayStep
    rw [if_neg hne]
    show sumAccs accs (applyTx accs ⟨s.bal, s.daily⟩ t).bal = _
    rw [applyTx_bal_nontransfer accs ⟨s.bal, s.daily⟩ hne]
    rw [sumAccs_set hnd hacct, hty]
    simp
  | despesa =>
    have hne : ¬ t.ty = .transferencia := by
      rw [hty]
      intro h
      cases h
    have hnr : ¬ t.ty = .receita := by
      rw [hty]
      intro h
      cases h
    unfold replayStep
    rw [if_neg hne]
    show sumAccs accs (applyTx accs ⟨s.bal, s.daily⟩ t).bal = _
    rw [applyTx_bal_nontransfer accs ⟨s.bal, s.daily⟩ hne]
    rw [sumAccs_set hnd hacct, if_neg hnr]
    ring

theorem sumAccs_replay_fold (accs : List Account) (tmap : List (String × Tx))
    (hnd : (accs.map (fun a => a.id)).Nodup) :
    ∀ (l : List Tx) (s : ReplayState),
      (∀ t ∈ l, t.account_id ∈ accs.map (fun a => a.id)
        ∧ (t.ty = .transferencia →
            ∃ dest, t.destination_account_id = some dest
              ∧ dest ∈ accs.map (fun a => a.id))) →
      sumAccs accs (l.foldl (replayStep accs tmap) s).bal
        = sumAccs accs s.bal + netNonTransfer l := by
  intro l
  induction l with
  | nil =>
    intro s _
    simp [netNonTransfer]
  | cons t rest ih =>
    intro s hl
    obtain ⟨hacct, htr⟩ := hl t (List.mem_cons_self _ _)
    simp only [List.foldl_cons]
    rw [ih _ (fun u hu => hl u (List.mem_cons_of_mem _ hu))]
    rw [sumAccs_replayStep accs tmap hnd s t hacct htr, netNonTransfer_cons]
    ring

end Reports

/-- C4: after replaying every transaction dated on or before the
evaluation date, the sum over all fetched accounts of the computed
balance equals the sum of the opening balances plus the net
(income minus expense) of the non-transfer transactions in that range;
transfer rows contribute zero to the portfolio total. Requires the usual
data-model sanity: distinct account ids and all referenced accounts
fetched. -/
theorem claim_C4_portfolio_sum_invariant (accs : List Account) (ts : List Tx)
    (evalDate : Nat) (hnd : (accs.map (fun a => a.id)).Nodup)
    (href : ∀ t ∈ ts, t.date ≤ evalDate →
      t.account_id ∈ accs.map (fun a => a.id)
      ∧ (t.ty = .transferencia →
          ∃ dest, t.destination_account_id = some dest
            ∧ dest ∈ accs.map (fun a => a.id))) :
    Reports.sumAccs accs
        (Reports.replay accs (ts.filter (fun t => decide (t.date ≤ evalDate)))).bal
      = (accs.map (fun a => a.balance)).sum
        + Reports.netNonTransfer (ts.filter (fun t => decide (t.date ≤ evalDate))) := by
  have hperm : List.Perm
      (Reports.sortedAllTransactions (ts.filter (fun t => decide (t.date ≤ evalDate))))
      (ts.filter (fun t => decide (t.date ≤ evalDate))) :=
    List.perm_insertionSort dateLe _
  have hl : ∀ t ∈ Reports.sortedAllTransactions
      (ts.filter (fun t => decide (t.date ≤ evalDate))),
      t.account_id ∈ accs.map (fun a => a.id)
      ∧ (t.ty = .transferencia →
          ∃ dest, t.destination_account_id = some dest
            ∧ dest ∈ accs.map (fun a => a.id)) := by
    intro t ht
    have ht2 := hperm.mem_iff.mp ht
    have ht3 := List.mem_filter.mp ht2
    exact href t ht3.1 (by simpa using ht3.2)
  unfold Reports.replay
  rw [Reports.sumAccs_replay_fold accs _ hnd _ _ hl]
  show Reports.sumAccs accs (Reports.initialBalances accs) + _ = _
  rw [Reports.sumAccs_init hnd]
  congr 1
  unfold Reports.netNonTransfer
  exact List.Perm.sum_eq (hperm.map _)

/-- Witness for C4: one account with opening 1000 and a single in-range
income of 50; the portfolio total is 1000 + 50. -/
theorem claim_C4_portfolio_sum_invariant_witness :
    (([⟨"A", "Conta A", 1000⟩] : List Account).map (fun a => a.id)).Nodup
    ∧ Reports.sumAccs [⟨"A", "Conta A", 1000⟩]
        (Reports.replay [⟨"A", "Conta A", 1000⟩]
          ([⟨"t1", .receita, 50, 20240101, 1, "A", none, none, none⟩].filter
            (fun t => decide (t.date ≤ 20240131)))).bal
      = (([⟨"A", "Conta A", 1000⟩] : List Account).map (fun a => a.balance)).sum
        + Reports.netNonTransfer
            ([⟨"t1", .receita, 50, 20240101, 1, "A", none, none, none⟩].filter
              (fun t => decide (t.date ≤ 20240131))) :=
  ⟨by decide,
    claim_C4_portfolio_sum_invariant [⟨"A", "Conta A", 1000⟩]
      [⟨"t1", .receita, 50, 20240101, 1, "A", none, none, none⟩] 20240131
      (by decide) (by decide)⟩

namespace Reports

theorem pureStep_skip {accs : List Account} {tmap : List (String × Tx)}
    {bd : BalDaily} {t : Tx} (hty : t.ty = .transferencia)
    (hps : pairSkip tmap t = true) : pureStep accs tmap bd t = bd := by
  unfold pureStep
  rw [if_pos ⟨hty, hps⟩]

theorem pureStep_apply {accs : List Account} {tmap : List (String × Tx)}
    {bd : BalDaily} {t : Tx}
    (h : ¬ (t.ty = .transferencia ∧ pairSkip tmap t = true)) :
    pureStep accs tmap bd t = applyTx accs bd t := by
  unfold pureStep
  rw [if_neg h]

/-- Core equivalence: over a well-paired log, the stateful replay (with
its `processedTransfers` set) computes the same balances and snapshots as
the stateless fold that skips exactly the statically-determined late
transfer legs. -/
theorem replay_fold_eq_pure (accs : List Account) (full : List Tx)
    (hnd : (full.map Tx.id).Nodup)
    (hwf : ∀ t ∈ full, t.ty = .transferencia →
      ∀ pid, t.transfer_pair_id = some pid → ∀ p ∈ full, p.id = pid →
        (p.ty = .transferencia ∧ p.transfer_pair_id = some t.id
          ∧ p.created_at ≠ t.created_at)) :
    ∀ (l : List Tx), List.Sublist l full → ∀ (s : ReplayState),
      (∀ u ∈ l, u.id ∈ s.processed → pairSkip (transactionMap full) u = true) →
      ((l.foldl (replayStep accs (transactionMap full)) s).bal
          = (l.foldl (pureStep accs (transactionMap full)) ⟨s.bal, s.daily⟩).bal
        ∧ (l.foldl (replayStep accs (transactionMap full)) s).daily
          = (l.foldl (pureStep accs (transactionMap full)) ⟨s.bal, s.daily⟩).daily) := by
  intro l
  induction l with
  | nil =>
    intro _ s _
    exact ⟨rfl, rfl⟩
  | cons t rest ih =>
    intro hsub s hinv
    have hsubrest : List.Sublist rest full :=
      (List.sublist_cons_self t rest).trans hsub
    have htfull : t ∈ full := hsub.subset (List.mem_cons_self t rest)
    have hndl : ((t :: rest).map Tx.id).Nodup :=
      List.Nodup.sublist (List.Sublist.map Tx.id hsub) hnd
    have htidrest : ∀ u ∈ rest, u.id ≠ t.id := by
      intro u hu he
      have h1 : t.id ∉ rest.map Tx.id := (List.nodup_cons.mp (by simpa using hndl)).1
      exact h1 (he ▸ List.mem_map_of_mem Tx.id hu)
    simp only [List.foldl_cons]
    by_cases hty : t.ty = .transferencia
    · by_cases hproc : t.id ∈ s.processed
      · have hskip := hinv t (List.mem_cons_self t rest) hproc
        have hstep : replayStep accs (transactionMap full) s t = s := by
          unfold replayStep
          rw [if_pos hty, if_pos hproc]
        rw [hstep, pureStep_skip hty hskip]
        exact ih hsubrest s (fun u hu hup => hinv u (List.mem_cons_of_mem t hu) hup)
      · by_cases hps : pairSkip (transactionMap full) t = true
        · have hstep : replayStep accs (transactionMap full) s t
              = { s with processed := t.id :: s.processed } := by
            unfold replayStep
            rw [if_pos hty, if_neg hproc, if_pos hps]
          rw [hstep, pureStep_skip hty hps]
          apply ih hsubrest
          intro u hu hup
          rcases List.mem_cons.mp hup with he | hup2
          · exact absurd he (htidrest u hu)
          · exact hinv u (List.mem_cons_of_mem t hu) hup2
        · have hpure : pureStep accs (transactionMap full) ⟨s.bal, s.daily⟩ t
              = applyTx accs ⟨s.bal, s.daily⟩ t :=
            pureStep_apply (fun hc => hps hc.2)
          cases hpid : t.transfer_pair_id with
          | none =>
            have hstep : replayStep accs (transactionMap full) s t
                = ⟨(applyTx accs ⟨s.bal, s.daily⟩ t).bal,
                   (applyTx accs ⟨s.bal, s.daily⟩ t).daily,
                   t.id :: s.processed⟩ := by
              unfold replayStep
              rw [if_pos hty, if_neg hproc, if_neg hps, hpid]
            rw [hstep, hpure]
            apply ih hsubrest
            intro u hu hup
            rcases List.mem_cons.mp hup with he | hup2
            · exact absurd he (htidrest u hu)
            · exact hinv u (List.mem_cons_of_mem t hu) hup2
          | some pid =>
            have hstep : replayStep accs (transactionMap full) s t
                = ⟨(applyTx accs ⟨s.bal, s.daily⟩ t).bal,
                   (applyTx accs ⟨s.bal, s.daily⟩ t).daily,
                   pid :: t.id :: s.processed⟩ := by
              unfold replayStep
              rw [if_pos hty, if_neg hproc, if_neg hps, hpid]
            rw [hstep, hpure]
            apply ih hsubrest
            intro u hu hup
            rcases List.mem_cons.mp hup with he | hup2
            · have hufull : u ∈ full := hsubrest.subset hu
              obtain ⟨huty, hupair, hucr⟩ := hwf t htfull hty pid hpid u hufull he
              have hgetu : mapGet? (transactionMap full) pid = some u := by
                have hg := transactionMap_get hnd hufull
                rw [he] at hg
                exact hg
              have hgett : mapGet? (transactionMap full) t.id = some t :=
                transactionMap_get hnd htfull
              have hnlt : ¬ u.created_at < t.created_at := by
                intro hlt
                apply hps
                unfold pairSkip
                simp only [hpid, hgetu]
                simpa using hlt
              have hlt2 : t.created_at < u.created_at :=
                lt_of_le_of_ne (Nat.le_of_not_lt hnlt) (fun he2 => hucr he2.symm)
              unfold pairSkip
              simp only [hupair, hgett]
              simpa using hlt2
            · rcases List.mem_cons.mp hup2 with he2 | hup3
              · exact absurd he2 (htidrest u hu)
              · exact hinv u (List.mem_cons_of_mem t hu) hup3
    · have hstep : replayStep accs (transactionMap full) s t
          = ⟨(applyTx accs ⟨s.bal, s.daily⟩ t).bal,
             (applyTx accs ⟨s.bal, s.daily⟩ t).daily, s.processed⟩ := by
        unfold replayStep
        rw [if_neg hty]
      have hpure : pureStep accs (transactionMap full) ⟨s.bal, s.daily⟩ t
          = applyTx accs ⟨s.bal, s.daily⟩ t :=
        pureStep_apply (fun hc => hty hc.1)
      rw [hstep, hpure]
      exact ih hsubrest _ (fun u hu hup => hinv u (List.mem_cons_of_mem t hu) hup)

/-- The full stateful replay agrees with the stateless static-skip fold. -/
theorem replay_eq_pureReplay (accs : List Account) (ts : List Tx)
    (hnd : (ts.map Tx.id).Nodup)
    (hwf : ∀ t ∈ ts, t.ty = .transferencia →
      ∀ pid, t.transfer_pair_id = some pid → ∀ p ∈ ts, p.id = pid →
        (p.ty = .transferencia ∧ p.transfer_pair_id = some t.id
          ∧ p.created_at ≠ t.created_at)) :
    (replay accs ts).bal = (pureReplay accs ts).bal
    ∧ (replay accs ts).daily = (pureReplay accs ts).daily := by
  have hperm : List.Perm (sortedAllTransactions ts) ts :=
    List.perm_insertionSort dateLe ts
  have hnd2 : ((sortedAllTransactions ts).map Tx.id).Nodup :=
    (hperm.map Tx.id).nodup_iff.mpr hnd
  have hwf2 : ∀ t ∈ sortedAllTransactions ts, t.ty = .transferencia →
      ∀ pid, t.transfer_pair_id = some pid →
        ∀ p ∈ sortedAllTransactions ts, p.id = pid →
          (p.ty = .transferencia ∧ p.transfer_pair_id = some t.id
            ∧ p.created_at ≠ t.created_at) := by
    intro t ht hty pid hpid p hp hpe
    exact hwf t (hperm.mem_iff.mp ht) hty pid hpid p (hperm.mem_iff.mp hp) hpe
  exact replay_fold_eq_pure accs (sortedAllTransactions ts) hnd2 hwf2
    (sortedAllTransactions ts) (List.Sublist.refl _)
    ⟨initialBalances accs, [], []⟩ (by intro u _ hup; simp at hup)

end Reports

/-- C1: over a well-paired log, the balance replay computes exactly the
stateless single-application semantics: (i) balances and snapshots equal
the fold that applies every row except the statically-late transfer legs
exactly once; (ii) for a linked pair with distinct `created_at`, the
later-created credit leg is a static late leg (skipped entirely) while
the earlier-created origin leg is not; and (iii) the applied origin leg's
effect decrements its own `account_id` by `amount` and increments its own
`destination_account_id` by `amount`. -/
theorem claim_C1_transfer_pair_applied_once (accs : List Account)
    (ts : List Tx) (a b : Tx) (da : String)
    (hwf : Reports.PairWF ts) (ha : a ∈ ts) (hb : b ∈ ts)
    (hta : a.ty = .transferencia) (htb : b.ty = .transferencia)
    (hab : a.transfer_pair_id = some b.id) (hba : b.transfer_pair_id = some a.id)
    (hcr : a.created_at < b.created_at)
    (hdest : a.destination_account_id = some da) :
    ((Reports.replay accs ts).bal = (Reports.pureReplay accs ts).bal
      ∧ (Reports.replay accs ts).daily = (Reports.pureReplay accs ts).daily)
    ∧ Reports.pairSkip (Reports.transactionMap (Reports.sortedAllTransactions ts)) b = true
    ∧ Reports.pairSkip (Reports.transactionMap (Reports.sortedAllTransactions ts)) a = false
    ∧ ∀ bd : Reports.BalDaily,
        (Reports.applyTx accs bd a).bal
          = mapSet (mapSet bd.bal a.account_id (mapGetD bd.bal a.account_id 0 - a.amount))
              da (mapGetD (mapSet bd.bal a.account_id
                    (mapGetD bd.bal a.account_id 0 - a.amount)) da 0 + a.amount) := by
  obtain ⟨hnd, hwfr⟩ := hwf
  have hwfr2 : ∀ t ∈ ts, t.ty = .transferencia →
      ∀ pid, t.transfer_pair_id = some pid → ∀ p ∈ ts, p.id = pid →
        (p.ty = .transferencia ∧ p.transfer_pair_id = some t.id
          ∧ p.created_at ≠ t.created_at) := by
    intro t ht hty pid hpid p hp hpe
    exact hwfr t ht hty p hp (by rw [hpe]; exact hpid)
  have hperm : List.Perm (Reports.sortedAllTransactions ts) ts :=
    List.perm_insertionSort dateLe ts
  have hnd2 : ((Reports.sortedAllTransactions ts).map Tx.id).Nodup :=
    (hperm.map Tx.id).nodup_iff.mpr hnd
  have hga : mapGet? (Reports.transactionMap (Reports.sortedAllTransactions ts)) a.id
      = some a :=
    Reports.transactionMap_get hnd2 (hperm.mem_iff.mpr ha)
  have hgb : mapGet? (Reports.transactionMap (Reports.sortedAllTransactions ts)) b.id
      = some b :=
    Reports.transactionMap_get hnd2 (hperm.mem_iff.mpr hb)
  refine ⟨Reports.replay_eq_pureReplay accs ts hnd hwfr2, ?_, ?_,
    fun bd => Reports.applyTx_bal_transfer accs bd hta hdest⟩
  · unfold Reports.pairSkip
    simp only [hba, hga]
    simpa using hcr
  · unfold Reports.pairSkip
    simp only [hab, hgb]
    exact decide_eq_false (fun h => absurd hcr (Nat.lt_asymm h))

/-- Witness for C1 at a concrete well-paired two-leg log. -/
theorem claim_C1_transfer_pair_applied_once_witness :
    Reports.PairWF
      [⟨"t1", .transferencia, 200, 20240102, 1, "A", some "B", some "t2", none⟩,
       ⟨"t2", .transferencia, 200, 20240102, 2, "B", some "A", some "t1", none⟩]
    ∧ Reports.pairSkip
        (Reports.transactionMap (Reports.sortedAllTransactions
          [⟨"t1", .transferencia, 200, 20240102, 1, "A", some "B", some "t2", none⟩,
           ⟨"t2", .transferencia, 200, 20240102, 2, "B", some "A", some "t1", none⟩]))
        ⟨"t2", .transferencia, 200, 20240102, 2, "B", some "A", some "t1", none⟩ = true
    ∧ Reports.pairSkip
        (Reports.transactionMap (Reports.sortedAllTransactions
          [⟨"t1", .transferencia, 200, 20240102, 1, "A", some "B", some "t2", none⟩,
           ⟨"t2", .transferencia, 200, 20240102, 2, "B", some "A", some "t1", none⟩]))
        ⟨"t1", .transferencia, 200, 20240102, 1, "A", some "B", some "t2", none⟩ = false
    ∧ (Reports.replay [⟨"A", "Conta A", 1000⟩, ⟨"B", "Conta B", 0⟩]
        [⟨"t1", .transferencia, 200, 20240102, 1, "A", some "B", some "t2", none⟩,
         ⟨"t2", .transferencia, 200, 20240102, 2, "B", some "A", some "t1", none⟩]).bal
      = (Reports.pureReplay [⟨"A", "Conta A", 1000⟩, ⟨"B", "Conta B", 0⟩]
        [⟨"t1", .transferencia, 200, 20240102, 1, "A", some "B", some "t2", none⟩,
         ⟨"t2", .transferencia, 200, 20240102, 2, "B", some "A", some "t1", none⟩]).bal := by
  have h := claim_C1_transfer_pair_applied_once
    [⟨"A", "Conta A", 1000⟩, ⟨"B", "Conta B", 0⟩]
    [⟨"t1", .transferencia, 200, 20240102, 1, "A", some "B", some "t2", none⟩,
     ⟨"t2", .transferencia, 200, 20240102, 2, "B", some "A", some "t1", none⟩]
    ⟨"t1", .transferencia, 200, 20240102, 1, "A", some "B", some "t2", none⟩
    ⟨"t2", .transferencia, 200, 20240102, 2, "B", some "A", some "t1", none⟩
    "B" (by decide) (by decide) (by decide) rfl rfl rfl rfl (by decide) rfl
  exact ⟨by decide, h.2.1, h.2.2.1, h.1.1⟩
